import Mathlib

/-!
Verification of the ReadEase document-extraction core.

This file gives a shallow embedding of the EPUB chapter-extraction pipeline
(`EpubReader.tsx`), the PDF page-text reconstructor (`PdfReader.tsx`) and the
progress model (`BookReader.tsx`), and proves or refutes the frozen claims
about them.  Strings are processed over their underlying character lists so
that every definition is executable and every concrete run can be settled by
`decide`.  Scanning functions that mirror JavaScript regular-expression loops
take an explicit fuel argument; any fuel of at least the input length yields
the scan's result, and all theorems instantiate the fuel that the source
functions implicitly use (the input length plus one).
-/

namespace ReadEase

/-- Lower-case value of an ASCII character, as used by JavaScript
case-insensitive (`/i`) regular-expression matching on the ASCII patterns that
appear in the source. -/
def lcVal (c : Char) : Nat :=
  if 65 ≤ c.toNat ∧ c.toNat ≤ 90 then c.toNat + 32 else c.toNat

/-- Case-insensitive character comparison. -/
def charEqCI (a b : Char) : Bool := lcVal a == lcVal b

/-- Case-insensitive list prefix test. -/
def isPrefixCI : List Char → List Char → Bool
  | [], _ => true
  | _ :: _, [] => false
  | p :: ps, c :: cs => charEqCI p c && isPrefixCI ps cs

/-- Case-sensitive list prefix test. -/
def isPrefixCS : List Char → List Char → Bool
  | [], _ => true
  | _ :: _, [] => false
  | p :: ps, c :: cs => (p == c) && isPrefixCS ps cs

/-- Case-sensitive substring test (JavaScript `String.prototype.includes`). -/
def containsSubList (pat : List Char) : List Char → Bool
  | [] => isPrefixCS pat []
  | c :: cs => isPrefixCS pat (c :: cs) || containsSubList pat cs

/-- String wrapper for `containsSubList`. -/
def containsSubS (pat s : String) : Bool := containsSubList pat.data s.data

/-- Map an ASCII string to lower case (for `/i` suffix matching). -/
def lowerList (l : List Char) : List Char := l.map fun c => Char.ofNat (lcVal c)

/-- Case-sensitive suffix test (JavaScript `String.prototype.endsWith`). -/
def endsWithS (s suffix : String) : Bool := List.isSuffixOf suffix.data s.data

/-- Case-insensitive suffix test, modelling a `/x$/i` regular expression. -/
def endsWithCI (s suffix : String) : Bool :=
  List.isSuffixOf (lowerList suffix.data) (lowerList s.data)

/-- Drop characters up to and including the first `>`; `none` when there is no
`>`.  This is exactly how a `[^>]*>` regular-expression segment consumes its
input, since `[^>]*` cannot cross a `>`. -/
def dropThroughGt : List Char → Option (List Char)
  | [] => none
  | c :: cs => if c = '>' then some cs else dropThroughGt cs

/-- Split at the first case-insensitive occurrence of `pat`, returning the
characters before it and the characters after it.  `none` when `pat` does not
occur.  This models a lazy `[\s\S]*?pat` regular-expression segment. -/
def splitAtPatCI (pat : List Char) : List Char → Option (List Char × List Char)
  | [] => if pat.isEmpty then some ([], []) else none
  | c :: cs =>
    if isPrefixCI pat (c :: cs) then some ([], List.drop pat.length (c :: cs))
    else
      match splitAtPatCI pat cs with
      | some (b, a) => some (c :: b, a)
      | none => none

/-- Split at the first occurrence of a single character, returning the
characters before it and after it. -/
def splitAtChar (q : Char) : List Char → Option (List Char × List Char)
  | [] => none
  | c :: cs =>
    if c = q then some ([], cs)
    else
      match splitAtChar q cs with
      | some (b, a) => some (c :: b, a)
      | none => none

/-- Remove every match of `openPat[^>]*>[\s\S]*?closePat` (case-insensitive,
global), as in the `<script`/`<style` block removals of `cleanHtmlContent`. -/
def removeBlocksAux (openPat closePat : List Char) : Nat → List Char → List Char
  | 0, s => s
  | _ + 1, [] => []
  | fuel + 1, c :: cs =>
    if isPrefixCI openPat (c :: cs) then
      match dropThroughGt (List.drop openPat.length (c :: cs)) with
      | some afterGt =>
        match splitAtPatCI closePat afterGt with
        | some (_, afterClose) => removeBlocksAux openPat closePat fuel afterClose
        | none => c :: removeBlocksAux openPat closePat fuel cs
      | none => c :: removeBlocksAux openPat closePat fuel cs
    else c :: removeBlocksAux openPat closePat fuel cs

/-- Remove every match of `openPat[^>]*>` (case-insensitive, global), as in the
`<meta`/`<link` tag removals of `cleanHtmlContent`. -/
def removeTagsAux (openPat : List Char) : Nat → List Char → List Char
  | 0, s => s
  | _ + 1, [] => []
  | fuel + 1, c :: cs =>
    if isPrefixCI openPat (c :: cs) then
      match dropThroughGt (List.drop openPat.length (c :: cs)) with
      | some afterGt => removeTagsAux openPat fuel afterGt
      | none => c :: removeTagsAux openPat fuel cs
    else c :: removeTagsAux openPat fuel cs

/-- Replace every (case-sensitive, non-overlapping, left-to-right) occurrence
of `pat` by `repl`, as JavaScript `String.prototype.replace` with a global
literal pattern does. -/
def replaceAllAux (pat repl : List Char) : Nat → List Char → List Char
  | 0, s => s
  | _ + 1, [] => []
  | fuel + 1, c :: cs =>
    if pat.isEmpty then c :: cs
    else if isPrefixCS pat (c :: cs) then
      repl ++ replaceAllAux pat repl fuel (List.drop pat.length (c :: cs))
    else c :: replaceAllAux pat repl fuel cs

/-- String wrapper for `replaceAllAux` with sufficient fuel. -/
def replaceAllS (s pat repl : String) : String :=
  String.mk (replaceAllAux pat.data repl.data (s.data.length + 1) s.data)

/-- Whitespace in the sense of JavaScript `String.prototype.trim` restricted to
the ASCII control/space characters. -/
def isWS (c : Char) : Bool := (9 ≤ c.toNat && c.toNat ≤ 13) || c.toNat == 32

/-- Trim leading and trailing whitespace. -/
def trimList (l : List Char) : List Char :=
  ((l.dropWhile isWS).reverse.dropWhile isWS).reverse

/-- String wrapper for `trimList`. -/
def trimS (s : String) : String := String.mk (trimList s.data)

/-- Split a character list on a separator character (JavaScript
`String.prototype.split` with a single-character separator). -/
def splitOnCharList (sep : Char) : List Char → List (List Char)
  | [] => [[]]
  | c :: cs =>
    match splitOnCharList sep cs with
    | [] => [[c]]
    | h :: t => if c = sep then [] :: h :: t else (c :: h) :: t

/-- Remove every `<[^>]*>` match (global): the tag stripping used by
`cleanTextContent`.  A `<` with no later `>` is kept, as the regular
expression then has no match. -/
def stripTagsAux : Nat → List Char → List Char
  | 0, s => s
  | _ + 1, [] => []
  | fuel + 1, c :: cs =>
    if c = '<' then
      match dropThroughGt cs with
      | some afterGt => stripTagsAux fuel afterGt
      | none => c :: stripTagsAux fuel cs
    else c :: stripTagsAux fuel cs

/-- The apostrophe character, written by code point to keep source plain. -/
def aposS : String := String.mk [Char.ofNat 39]

/-! ### ContentSanitizer — `cleanHtmlContent` and `cleanTextContent` -/

/-- Removal of `<script[^>]*>[\s\S]*?<\/script>` matches (`/gi`). -/
def removeScriptBlocks (s : String) : String :=
  String.mk (removeBlocksAux "<script".data "</script>".data (s.data.length + 1) s.data)

/-- Removal of `<style[^>]*>[\s\S]*?<\/style>` matches (`/gi`). -/
def removeStyleBlocks (s : String) : String :=
  String.mk (removeBlocksAux "<style".data "</style>".data (s.data.length + 1) s.data)

/-- Removal of `<meta[^>]*>` matches (`/gi`). -/
def removeMetaTags (s : String) : String :=
  String.mk (removeTagsAux "<meta".data (s.data.length + 1) s.data)

/-- Removal of `<link[^>]*>` matches (`/gi`). -/
def removeLinkTags (s : String) : String :=
  String.mk (removeTagsAux "<link".data (s.data.length + 1) s.data)

/-- The six sequential entity replacements of `cleanHtmlContent`, in source
order: `&nbsp;`, `&amp;`, `&lt;`, `&gt;`, `&quot;`, `&#39;`. -/
def decodeEntities (s : String) : String :=
  replaceAllS (replaceAllS (replaceAllS (replaceAllS (replaceAllS (replaceAllS
    s "&nbsp;" " ") "&amp;" "&") "&lt;" "<") "&gt;" ">") "&quot;" "\"") "&#39;" aposS

/-- Embedding of `cleanHtmlContent` (EpubReader.tsx, lines 301-314): remove
script blocks, style blocks, meta tags and link tags, decode the entity
replacements in order, then trim. -/
def cleanHtmlContent (html : String) : String :=
  trimS (decodeEntities (removeLinkTags (removeMetaTags
    (removeStyleBlocks (removeScriptBlocks html)))))

/-- Embedding of `cleanTextContent` (EpubReader.tsx, lines 316-326): strip all
tags, normalize line endings, split into lines, trim each, drop empty lines,
join with blank lines, and cap at 20000 characters. -/
def cleanTextContent (text : String) : String :=
  let s := String.mk (stripTagsAux (text.data.length + 1) text.data)
  let s := replaceAllS (replaceAllS s "\r\n" "\n") "\r" "\n"
  let lines := (splitOnCharList '\n' s.data).map (fun l => trimList l)
  let lines := lines.filter (fun l => !l.isEmpty)
  String.mk (List.take 20000 (List.intercalate "\n\n".data lines))

/-! ### Tag captures — the `<title>`/`<h1>`/`<h2>`/`<h3>`/`<body>` patterns

A pattern `<tag[^>]*>(cap)<\/tag>` is matched leftmost: at each candidate
start the literal `<tag` must match case-insensitively, `[^>]*>` consumes up
to and including the first `>`, and the lazy capture runs to the first
closing tag.  For the title patterns the capture is `(.*?)`, which cannot
cross a line break; for the body pattern it is `([\s\S]*?)`, which can.  When
the capture fails at one start the scan resumes at the next character, as a
JavaScript regular-expression engine does. -/

/-- Capture of the first `openPat[^>]*>(...)closePat` match.  `noNL` selects
the `(.*?)` capture (no line breaks) rather than `([\s\S]*?)`. -/
def tagCaptureAux (openPat closePat : List Char) (noNL : Bool) :
    Nat → List Char → Option (List Char)
  | 0, _ => none
  | _ + 1, [] => none
  | fuel + 1, c :: cs =>
    if isPrefixCI openPat (c :: cs) then
      match dropThroughGt (List.drop openPat.length (c :: cs)) with
      | some afterGt =>
        match splitAtPatCI closePat afterGt with
        | some (cap, _) =>
          if noNL && (cap.contains '\n' || cap.contains '\r') then
            tagCaptureAux openPat closePat noNL fuel cs
          else some cap
        | none => tagCaptureAux openPat closePat noNL fuel cs
      | none => tagCaptureAux openPat closePat noNL fuel cs
    else tagCaptureAux openPat closePat noNL fuel cs

/-- Capture for a title-style pattern `<tag[^>]*>(.*?)<\/tag>` (`/i`). -/
def tagCapture (tag : String) (html : String) : Option String :=
  (tagCaptureAux ("<" ++ tag).data ("</" ++ tag ++ ">").data true
    (html.data.length + 1) html.data).map String.mk

/-- Capture for the body pattern `<body[^>]*>([\s\S]*?)<\/body>` (`/i`). -/
def bodyCapture (html : String) : Option String :=
  (tagCaptureAux "<body".data "</body>".data false
    (html.data.length + 1) html.data).map String.mk

/-- The title-pattern loop of `extractTitleFromHtml`: for each tag in order,
if the pattern matches and the raw capture is non-empty after trimming,
return the sanitized capture (which may itself be empty). -/
def titleFromPatterns : List String → String → Option String
  | [], _ => none
  | t :: ts, html =>
    match tagCapture t html with
    | some cap => if trimS cap ≠ "" then some (cleanTextContent cap) else titleFromPatterns ts html
    | none => titleFromPatterns ts html

/-- Embedding of `extractTitleFromHtml` (EpubReader.tsx, lines 257-279). -/
def extractTitleFromHtml (html : String) : Option String :=
  titleFromPatterns ["title", "h1", "h2", "h3"] html

/-- Embedding of `extractContentFromHtml` (EpubReader.tsx, lines 281-299):
clean the whole document, then keep only the body capture when a body wrapper
is present. -/
def extractContentFromHtml (html : String) : String :=
  let content := cleanHtmlContent html
  match bodyCapture content with
  | some inner => inner
  | none => content

/-! ### Archive model and chapter assembly -/

/-- One archive entry: its full path inside the ZIP and its text content.  A
loaded JSZip archive is modelled as the list of its entries in the archive's
native (insertion) enumeration order — the order of `Object.keys(zipFile.files)`. -/
structure ZipEntry where
  name : String
  content : String
deriving DecidableEq

/-- The entry names in enumeration order. -/
def zipNames (zip : List ZipEntry) : List String := zip.map ZipEntry.name

/-- Reading an entry as text: `zipFile.file(path)?.async(..)`.  Entry names in
a JSZip file table are unique, so first-match lookup is exact. -/
def zipLookup (zip : List ZipEntry) (path : String) : Option String :=
  (zip.find? fun e => e.name == path).map ZipEntry.content

/-- A produced chapter (EpubReader.tsx `Chapter` interface). -/
structure Chapter where
  id : String
  title : String
  content : String
deriving DecidableEq

/-- The title expression of `createChapterFromHtml` (line 239):
`extractTitleFromHtml(htmlContent) || Chapter-number fallback`.  The
JavaScript `||` replaces both a missing and an empty title by the fallback. -/
def chapterTitleOf (html : String) (chapterIndex : Nat) : String :=
  match extractTitleFromHtml html with
  | some t => if t = "" then "Chapter " ++ toString chapterIndex else t
  | none => "Chapter " ++ toString chapterIndex

/-- Embedding of `createChapterFromHtml` (EpubReader.tsx, lines 225-255).  A
missing entry and an entry with empty text are both rejected (the source
tests `if (!htmlContent)`), and a chapter is produced only when the extracted
content is non-empty after trimming. -/
def createChapterFromHtml (zip : List ZipEntry) (htmlPath : String)
    (chapterIndex : Nat) : Option Chapter :=
  match zipLookup zip htmlPath with
  | none => none
  | some htmlContent =>
    if htmlContent = "" then none
    else
      let content := extractContentFromHtml htmlContent
      if trimS content ≠ "" then
        some { id := "chapter-" ++ toString chapterIndex,
               title := chapterTitleOf htmlContent chapterIndex,
               content := content }
      else none

/-- The chapter-collection loop shared by both branches of
`extractEpubContent` (lines 107-113 and 124-130): iterate over the file list,
passing `i + 1` as the chapter index of the file at position `i`, and keep
the chapters that are produced.  `k` is the chapter index of the head file. -/
def chaptersFromFilesAux (zip : List ZipEntry) : Nat → List String → List Chapter
  | _, [] => []
  | k, f :: fs =>
    match createChapterFromHtml zip f k with
    | some c => c :: chaptersFromFilesAux zip (k + 1) fs
    | none => chaptersFromFilesAux zip (k + 1) fs

/-- The loop started at index 0, so the first file gets chapter index 1. -/
def chaptersFromFiles (zip : List ZipEntry) (files : List String) : List Chapter :=
  chaptersFromFilesAux zip 1 files

/-! ### Manifest (OPF) scanning -/

/-- Content-file name test: the `\.(html|xhtml)$/i` extension check. -/
def isContentFileName (name : String) : Bool :=
  endsWithCI name ".html" || endsWithCI name ".xhtml"

/-- Scan the part of an `<item` tag after the tag name for `href="value"`,
where only non-`>` characters may precede the attribute, the value runs to
the closing quote, and a `>` must follow to finish the tag.  Returns the
value together with the rest of the input after that `>`.  This is exact for
item tags carrying a single `href` attribute, which is what the source
regular expression effectively extracts (it re-matches each match for its
first `href`). -/
def itemHrefAux : Nat → List Char → Option (List Char × List Char)
  | 0, _ => none
  | _ + 1, [] => none
  | fuel + 1, c :: cs =>
    if isPrefixCI "href=\"".data (c :: cs) then
      match splitAtChar '"' (List.drop 6 (c :: cs)) with
      | some (value, afterQuote) =>
        match dropThroughGt afterQuote with
        | some afterGt => some (value, afterGt)
        | none => none
      | none => none
    else if c = '>' then none
    else itemHrefAux fuel cs

/-- Scan of `<item[^>]*href="([^"]*\.(?:html|xhtml))"[^>]*>` (`/gi`): collect,
in declaration order, the href of every item declaration whose reference ends
in one of the two content-file suffixes. -/
def scanItemsAux : Nat → List Char → List String
  | 0, _ => []
  | _ + 1, [] => []
  | fuel + 1, c :: cs =>
    if isPrefixCI "<item".data (c :: cs) then
      match itemHrefAux (cs.length + 1) (List.drop 5 (c :: cs)) with
      | some (href, afterGt) =>
        if isContentFileName (String.mk href) then
          String.mk href :: scanItemsAux fuel afterGt
        else scanItemsAux fuel cs
      | none => scanItemsAux fuel cs
    else scanItemsAux fuel cs

/-- String wrapper for the OPF item scan. -/
def scanItems (opfContent : String) : List String :=
  scanItemsAux (opfContent.data.length + 1) opfContent.data

/-- The prefix of a path up to and including its last `/`, or the empty
string when the path has no `/`: `p.substring(0, p.lastIndexOf('/') + 1)`. -/
def dirOfList : List Char → List Char
  | [] => []
  | c :: cs =>
    if cs.contains '/' then c :: dirOfList cs
    else if c = '/' then [c] else []

/-- String wrapper for `dirOfList`. -/
def dirOf (p : String) : String := String.mk (dirOfList p.data)

/-- The base-path computation of `extractHtmlFilesFromOpf` (lines 144-146):
the containing directory of the FIRST archive entry whose name ends in
`.opf`, in enumeration order — not of the manifest named by the container
descriptor. -/
def opfBasePath (names : List String) : String :=
  match names.find? (fun n => endsWithS n ".opf") with
  | some p => dirOf p
  | none => ""

/-- Embedding of `extractHtmlFilesFromOpf` (EpubReader.tsx, lines 140-180):
every content item of the manifest, in declaration order, prefixed by the
base path.  The CSS item scan of the source only injects styles into the
document and contributes nothing to the returned file list. -/
def extractHtmlFilesFromOpf (names : List String) (opfContent : String) : List String :=
  (scanItems opfContent).map fun href => opfBasePath names ++ href

/-- Embedding of `extractHtmlFilesDirectly` (EpubReader.tsx, lines 200-223):
push every entry whose name passes the content-extension check and does not
contain the substring `META-INF`; the CSS branch only injects styles. -/
def extractHtmlFilesDirectly (names : List String) : List String :=
  names.foldl
    (fun acc n =>
      if isContentFileName n && !containsSubS "META-INF" n then acc ++ [n] else acc)
    []

/-! ### Container descriptor -/

/-- Scan the inside of a `<rootfile` tag for `full-path="value"`: only
non-`>` characters may precede the attribute, the value runs to the closing
quote, and a `>` must follow.  Exact for tags carrying a single `full-path`
attribute. -/
def rootfileAttrAux : Nat → List Char → Option (List Char)
  | 0, _ => none
  | _ + 1, [] => none
  | fuel + 1, c :: cs =>
    if isPrefixCI "full-path=\"".data (c :: cs) then
      match splitAtChar '"' (List.drop 11 (c :: cs)) with
      | some (value, afterQuote) =>
        match dropThroughGt afterQuote with
        | some _ => some value
        | none => none
      | none => none
    else if c = '>' then none
    else rootfileAttrAux fuel cs

/-- Scan of `<rootfile[^>]*full-path="([^"]*)"[^>]*>` (`/i`, first match):
the manifest path declared by the container descriptor. -/
def rootfileFullPathAux : Nat → List Char → Option (List Char)
  | 0, _ => none
  | _ + 1, [] => none
  | fuel + 1, c :: cs =>
    if isPrefixCI "<rootfile".data (c :: cs) then
      match rootfileAttrAux (cs.length + 1) (List.drop 9 (c :: cs)) with
      | some value => some value
      | none => rootfileFullPathAux fuel cs
    else rootfileFullPathAux fuel cs

/-- String wrapper for the container scan. -/
def rootfileFullPath (containerXml : String) : Option String :=
  (rootfileFullPathAux (containerXml.data.length + 1) containerXml.data).map String.mk

/-- Embedding of `extractEpubContent` (EpubReader.tsx, lines 70-138): read the
container descriptor, follow its `full-path` manifest reference, build
chapters from the manifest's content items; when that yields no chapter at
all (missing or empty container, unmatched rootfile, unreadable manifest, or
no surviving chapter), fall back to the direct scan of the archive's file
table.  No error is surfaced on any of these paths; the function returns the
chapter list it could assemble. -/
def extractEpubContent (zip : List ZipEntry) : List Chapter :=
  let fromOpf :=
    match zipLookup zip "META-INF/container.xml" with
    | none => []
    | some containerXml =>
      if containerXml = "" then []
      else
        match rootfileFullPath containerXml with
        | none => []
        | some opfPath =>
          match zipLookup zip opfPath with
          | none => []
          | some opfContent =>
            if opfContent = "" then []
            else chaptersFromFiles zip (extractHtmlFilesFromOpf (zipNames zip) opfContent)
  if fromOpf = [] then chaptersFromFiles zip (extractHtmlFilesDirectly (zipNames zip))
  else fromOpf

/-! ### PageTextReconstructor — `convertTextContentToHtml` (PdfReader.tsx) -/

/-- One positioned text run.  `tx` and `ty` are `transform[4]` and
`transform[5]` of the PDF text item (x position and bottom-up y position);
coordinates are modelled as integers, which the concrete claims use. -/
structure TextItem where
  str : String
  tx : Int
  ty : Int
deriving DecidableEq

/-- The sort comparator of `convertTextContentToHtml` (lines 122-133):
`view3` is `page.view[3]` (the page's vertical extent).  When the two
top-down y values are within 10 units the comparator orders by x; otherwise
it returns `yB - yA`. -/
def compareItems (view3 : Int) (a b : TextItem) : Int :=
  let yA := view3 - a.ty
  let yB := view3 - b.ty
  if (yA - yB).natAbs < 10 then a.tx - b.tx
  else yB - yA

/-- Insert into a sorted list, keeping the inserted element (which occurs
later in the input) after every element that compares strictly before it and
before equal elements' successors is irrelevant here: `cmp x y ≤ 0` places
`x` first, which for a fold from the right yields a stable sort. -/
def insertByCompare (cmp : α → α → Int) (x : α) : List α → List α
  | [] => [x]
  | y :: ys => if cmp x y ≤ 0 then x :: y :: ys else y :: insertByCompare cmp x ys

/-- Stable comparison sort modelling `Array.prototype.sort`; for a comparator
that induces a total preorder on the input (as in every concrete run below)
every conforming sort implementation returns this list. -/
def sortByCompare (cmp : α → α → Int) : List α → List α
  | [] => []
  | x :: xs => insertByCompare cmp x (sortByCompare cmp xs)

/-- The angle-bracket escaping applied to each run's text. -/
def escapeAngles (s : String) : String :=
  replaceAllS (replaceAllS s "<" "&lt;") ">" "&gt;"

/-- The line-accumulation state of the reconstruction loop. -/
structure ConvState where
  html : String
  currentY : Int
  currentLine : String
deriving DecidableEq

/-- One iteration of the reconstruction loop (lines 138-153): when the run's
top-down y differs from the current line's y by more than 10, the current
line (if non-blank) is emitted and a new line is anchored at the new y; the
run's escaped text is then appended to the current line. -/
def convStep (view3 : Int) (st : ConvState) (item : TextItem) : ConvState :=
  let y := view3 - item.ty
  let st :=
    if (y - st.currentY).natAbs > 10 then
      { html := if trimS st.currentLine ≠ "" then
                  st.html ++ "<div class=\"pdf-line\">" ++ st.currentLine ++ "</div>"
                else st.html,
        currentY := y,
        currentLine := "" }
    else st
  { st with currentLine :=
      st.currentLine ++ "<span class=\"pdf-text\">" ++ escapeAngles item.str ++ "</span>" }

/-- Embedding of `convertTextContentToHtml` (PdfReader.tsx, lines 117-162):
sort the runs with `compareItems`, walk them accumulating lines (the initial
`currentY` is `-1`), flush the last line, and wrap everything in the page
container. -/
def convertTextContentToHtml (items : List TextItem) (view3 : Int) : String :=
  let sorted := sortByCompare (compareItems view3) items
  let st := sorted.foldl (convStep view3) ⟨"<div class=\"pdf-page\">", -1, ""⟩
  let html :=
    if trimS st.currentLine ≠ "" then
      st.html ++ "<div class=\"pdf-line\">" ++ st.currentLine ++ "</div>"
    else st.html
  html ++ "</div>"

/-! ### ProgressModel — the progress effects of `BookReader.tsx` -/

/-- A saved progress record. -/
structure Progress where
  currentPage : Nat
  totalPages : Nat
  percentage : Nat
deriving DecidableEq

/-- The percentage expression `Math.round((currentPage / totalPages) * 100)`
computed in exact arithmetic for `totalPages > 0`: `Math.round x = ⌊x + 1/2⌋`,
and for natural inputs `⌊100c/t + 1/2⌋ = (200c + t) / (2t)` in natural
division (certified against Mathlib's `round` below). -/
def progressPercentage (currentPage totalPages : Nat) : Nat :=
  (200 * currentPage + totalPages) / (2 * totalPages)

/-- The auto-save progress effect (BookReader.tsx, lines 79-94): a progress
record is produced only when `totalPages > 0` and auto-save is enabled;
otherwise nothing is saved — no percentage is computed at all. -/
def autoSaveProgress (currentPage totalPages : Nat) (autoSaveEnabled : Bool) :
    Option Progress :=
  if 0 < totalPages ∧ autoSaveEnabled then
    some ⟨currentPage, totalPages, progressPercentage currentPage totalPages⟩
  else none

/-- The unmount-save effect (BookReader.tsx, lines 117-146): same guard on
`totalPages > 0`. -/
def unmountSaveProgress (currentPage totalPages : Nat) : Option Progress :=
  if 0 < totalPages then
    some ⟨currentPage, totalPages, progressPercentage currentPage totalPages⟩
  else none

/-! ### Specification-side definitions

These definitions follow the words of the specification and are compared with
the embedded source functions in the theorems below. -/

/-- Specification-side content of one declared item: the sanitized content of
the archive entry at `path`, or nothing when the entry is unreadable (missing
or empty) or its sanitized content is empty after trimming — in which case
the chapter is dropped. -/
def chapterContentOf (zip : List ZipEntry) (path : String) : Option String :=
  match zipLookup zip path with
  | none => none
  | some h =>
    if h = "" then none
    else if trimS (extractContentFromHtml h) ≠ "" then some (extractContentFromHtml h)
    else none

/-- Survival test for a file list starting at chapter index `k`: every file
yields a chapter.  Used to state when the produced ids are contiguous. -/
def allSurviveFrom (zip : List ZipEntry) : Nat → List String → Bool
  | _, [] => true
  | k, f :: fs => (createChapterFromHtml zip f k).isSome && allSurviveFrom zip (k + 1) fs

/-! ### Concrete inputs used by the claims -/

/-- Archive whose first content file sanitizes to nothing: the declared file
`a.html` holds only a script block, so it is dropped, and the surviving
second file keeps the id derived from its original position. -/
def zipGap : List ZipEntry :=
  [⟨"a.html", "<script>x()</script>"⟩, ⟨"b.html", "<p>B</p>"⟩]

/-- Archive with no drops, for the contiguity witness. -/
def zipNoDrop : List ZipEntry :=
  [⟨"a.html", "<p>A</p>"⟩, ⟨"b.html", "<p>B</p>"⟩]

/-- Container descriptor declaring the manifest at `OEBPS/content.opf`. -/
def containerDecoy : String :=
  "<container><rootfiles><rootfile full-path=\"OEBPS/content.opf\" media-type=\"application/oebps-package+xml\"/></rootfiles></container>"

/-- Manifest declaring the single content item `ch1.html`. -/
def opfDecoy : String :=
  "<manifest><item id=\"c1\" href=\"ch1.html\" media-type=\"application/xhtml+xml\"/></manifest>"

/-- Archive in which a decoy `.opf` entry precedes the manifest that the
container descriptor declares: the base-path computation picks the decoy. -/
def zipDecoy : List ZipEntry :=
  [⟨"META-INF/container.xml", containerDecoy⟩,
   ⟨"other/fake.opf", "<package></package>"⟩,
   ⟨"OEBPS/content.opf", opfDecoy⟩,
   ⟨"OEBPS/ch1.html", "<p>One</p>"⟩,
   ⟨"other/ch1.html", "<p>Wrong</p>"⟩]

/-- Archive with no container descriptor, three content-suffixed entries and
one stylesheet entry. -/
def zipFallback : List ZipEntry :=
  [⟨"a.html", "<p>A</p>"⟩, ⟨"b.xhtml", "<p>B</p>"⟩, ⟨"style.css", "red"⟩,
   ⟨"c.html", "<p>C</p>"⟩]

/-- Well-formed archive: container, manifest with two content items declared
in an order opposite to the entries' byte order, and one stylesheet item. -/
def opfW : String :=
  "<item href=\"z2.html\"/><item href=\"a1.html\"/><item href=\"n.css\"/>"

/-- The archive for `opfW`; its content entries are stored in the opposite
byte order (`a1.html` before `z2.html`). -/
def zipW : List ZipEntry :=
  [⟨"META-INF/container.xml", "<rootfile full-path=\"OEBPS/book.opf\"/>"⟩,
   ⟨"OEBPS/book.opf", opfW⟩,
   ⟨"OEBPS/a1.html", "<h1>One</h1><p>first</p>"⟩,
   ⟨"OEBPS/z2.html", "<h1>Two</h1><p>second</p>"⟩]

/-- Document whose `<title>` capture is non-empty raw text that sanitizes to
the empty string, while a later `<h1>` holds a real title. -/
def htmlEmptyTitle : String := "<title><span></span></title><h1>Real</h1>"

/-- One-file archive around `htmlEmptyTitle`. -/
def zipEmptyTitle : List ZipEntry := [⟨"t.html", htmlEmptyTitle⟩]

set_option maxRecDepth 10000

/-! ### Support lemmas -/

/-- The content of a produced chapter agrees with the specification-side
per-item content, and a chapter is produced exactly when that content
exists. -/
theorem createChapterFromHtml_content (zip : List ZipEntry) (f : String) (k : Nat) :
    (createChapterFromHtml zip f k).map Chapter.content = chapterContentOf zip f := by
  cases hL : zipLookup zip f with
  | none => simp [createChapterFromHtml, chapterContentOf, hL]
  | some h =>
    by_cases h1 : h = ""
    · simp [createChapterFromHtml, chapterContentOf, hL, h1]
    · by_cases h2 : trimS (extractContentFromHtml h) = ""
      · simp [createChapterFromHtml, chapterContentOf, hL, h1, h2]
      · simp [createChapterFromHtml, chapterContentOf, hL, h1, h2]

/-- The chapter loop emits, in input order, exactly the contents of the files
that survive; no reordering happens and the running index does not influence
contents. -/
theorem chaptersFromFilesAux_map_content (zip : List ZipEntry) :
    ∀ (files : List String) (k : Nat),
      (chaptersFromFilesAux zip k files).map Chapter.content
        = files.filterMap (chapterContentOf zip)
  | [], _ => rfl
  | f :: fs, k => by
    have h := createChapterFromHtml_content zip f k
    rw [chaptersFromFilesAux]
    cases hc : createChapterFromHtml zip f k with
    | none =>
      have h2 : chapterContentOf zip f = none := by rw [← h, hc]; rfl
      rw [List.filterMap_cons, h2]
      exact chaptersFromFilesAux_map_content zip fs (k + 1)
    | some c =>
      have h2 : chapterContentOf zip f = some c.content := by rw [← h, hc]; rfl
      rw [List.filterMap_cons, h2]
      exact congrArg (List.cons c.content) (chaptersFromFilesAux_map_content zip fs (k + 1))

/-- Chapter creation depends on the archive only through the lookup of the
requested path. -/
theorem createChapterFromHtml_congr (z1 z2 : List ZipEntry) (p : String) (k : Nat)
    (h : zipLookup z1 p = zipLookup z2 p) :
    createChapterFromHtml z1 p k = createChapterFromHtml z2 p k := by
  unfold createChapterFromHtml
  rw [h]

/-- The chapter loop depends on the archive only through its lookup map; in
particular the entries' byte order inside the archive is irrelevant. -/
theorem chaptersFromFilesAux_congr (z1 z2 : List ZipEntry)
    (h : ∀ p, zipLookup z1 p = zipLookup z2 p) :
    ∀ (files : List String) (k : Nat),
      chaptersFromFilesAux z1 k files = chaptersFromFilesAux z2 k files
  | [], _ => rfl
  | f :: fs, k => by
    rw [chaptersFromFilesAux, chaptersFromFilesAux,
      createChapterFromHtml_congr z1 z2 f k (h f),
      chaptersFromFilesAux_congr z1 z2 h fs (k + 1)]

/-- A produced chapter's id records the chapter index it was created with. -/
theorem createChapterFromHtml_id (zip : List ZipEntry) (f : String) (k : Nat) (c : Chapter)
    (h : createChapterFromHtml zip f k = some c) : c.id = "chapter-" ++ toString k := by
  unfold createChapterFromHtml at h
  cases hL : zipLookup zip f with
  | none => rw [hL] at h; exact Option.noConfusion h
  | some s =>
    rw [hL] at h
    dsimp only at h
    by_cases h1 : s = ""
    · rw [if_pos h1] at h; exact Option.noConfusion h
    · rw [if_neg h1] at h
      by_cases h2 : trimS (extractContentFromHtml s) ≠ ""
      · rw [if_pos h2] at h
        have hcs := Option.some_inj.mp h
        rw [← hcs]
      · rw [if_neg h2] at h; exact Option.noConfusion h

/-- Every chapter the loop emits comes from the file at some position `j` of
the input list and carries the index `k + j`. -/
theorem chaptersFromFilesAux_mem (zip : List ZipEntry) :
    ∀ (files : List String) (k : Nat) (c : Chapter), c ∈ chaptersFromFilesAux zip k files →
      ∃ j f, files.get? j = some f ∧ createChapterFromHtml zip f (k + j) = some c
  | [], _, _, h => by simp [chaptersFromFilesAux] at h
  | f :: fs, k, c, h => by
    rw [chaptersFromFilesAux] at h
    cases hc : createChapterFromHtml zip f k with
    | some c0 =>
      rw [hc] at h
      rcases List.mem_cons.mp h with h0 | h1
      · exact ⟨0, f, rfl, by rw [Nat.add_zero, hc, h0]⟩
      · obtain ⟨j, g, hg, hcr⟩ := chaptersFromFilesAux_mem zip fs (k + 1) c h1
        exact ⟨j + 1, g, hg, by rw [show k + (j + 1) = k + 1 + j by omega]; exact hcr⟩
    | none =>
      rw [hc] at h
      obtain ⟨j, g, hg, hcr⟩ := chaptersFromFilesAux_mem zip fs (k + 1) c h
      exact ⟨j + 1, g, hg, by rw [show k + (j + 1) = k + 1 + j by omega]; exact hcr⟩

/-- When every file survives, the emitted ids are exactly
`chapter-(k+0) .. chapter-(k+n-1)` in order. -/
theorem chaptersFromFilesAux_ids (zip : List ZipEntry) :
    ∀ (files : List String) (k : Nat), allSurviveFrom zip k files = true →
      (chaptersFromFilesAux zip k files).map Chapter.id
        = (List.range files.length).map (fun j => "chapter-" ++ toString (k + j))
  | [], _, _ => rfl
  | f :: fs, k, hall => by
    rw [allSurviveFrom, Bool.and_eq_true] at hall
    obtain ⟨c, hc⟩ := Option.isSome_iff_exists.mp hall.1
    rw [chaptersFromFilesAux, hc]
    rw [List.map_cons, createChapterFromHtml_id zip f k c hc,
      chaptersFromFilesAux_ids zip fs (k + 1) hall.2,
      List.length_cons, List.range_succ_eq_map, List.map_cons, List.map_map,
      Nat.add_zero]
    refine congrArg (List.cons _) (List.map_congr_left fun j _ => ?_)
    have : k + 1 + j = k + (j + 1) := by omega
    rw [Function.comp_apply, this]

/-- A fold that pushes matching elements onto an accumulator is the filter of
the input appended to the accumulator. -/
theorem foldl_push_filter {α : Type} (p : α → Bool) :
    ∀ (l acc : List α),
      l.foldl (fun acc n => if p n then acc ++ [n] else acc) acc = acc ++ l.filter p
  | [], acc => by simp
  | a :: l, acc => by
    by_cases h : p a = true
    · rw [List.foldl_cons, if_pos h, foldl_push_filter p l (acc ++ [a]),
        List.filter_cons, if_pos h, List.append_assoc, List.singleton_append]
    · rw [List.foldl_cons, if_neg (by simp [h]), foldl_push_filter p l acc,
        List.filter_cons, if_neg (by simp [h])]

/-- Every title the pattern loop returns is the sanitization of some raw
capture. -/
theorem titleFromPatterns_shape :
    ∀ (pats : List String) (html : String) (t : String),
      titleFromPatterns pats html = some t → ∃ cap, t = cleanTextContent cap
  | [], _, _, h => by simp [titleFromPatterns] at h
  | p :: ps, html, t, h => by
    rw [titleFromPatterns] at h
    split at h
    next cap _ =>
      split at h
      next => exact ⟨cap, (Option.some_inj.mp h).symm⟩
      next => exact titleFromPatterns_shape ps html t h
    next => exact titleFromPatterns_shape ps html t h

/-- The sanitized title is capped at 20000 characters. -/
theorem cleanTextContent_length_le (x : String) : (cleanTextContent x).length ≤ 20000 := by
  have : ∀ l : List Char, (String.mk l).length = l.length := fun _ => rfl
  rw [cleanTextContent]
  exact le_trans (le_of_eq (this _)) (List.length_take_le _ _)

/-- The integer percentage formula is `Math.round` of the exact quotient. -/
theorem progressPercentage_eq_round (c t : Nat) (ht : 0 < t) :
    (progressPercentage c t : ℤ) = round ((c : ℚ) * 100 / t) := by
  have ht' : (t : ℚ) ≠ 0 := Nat.cast_ne_zero.mpr ht.ne'
  have harg : (c : ℚ) * 100 / t + 1 / 2 = ((200 * c + t : ℕ) : ℚ) / ((2 * t : ℕ) : ℚ) := by
    push_cast
    field_simp
    ring
  rw [round_eq, harg, Rat.floor_natCast_div_natCast, progressPercentage]
  exact (Int.natCast_div _ _).symm

/-- The percentage never exceeds 100 when the current position does not
exceed the total. -/
theorem progressPercentage_le_100 (c t : Nat) (h1 : c ≤ t) :
    progressPercentage c t ≤ 100 := by
  rw [progressPercentage]
  rcases Nat.eq_zero_or_pos t with h0 | h0
  · subst h0; simp
  · have h2t : 0 < 2 * t := by omega
    have := (Nat.div_lt_iff_lt_mul h2t).mpr (show 200 * c + t < 101 * (2 * t) by omega)
    omega

/-! ### Claim theorems -/

/-- C1: for every archive whose manifest declares the content items `items`
(the ordered hrefs the OPF scan yields), the resolved file list is `items` in
declaration order with the base path prefixed, the produced chapter sequence
presents exactly those items' (readable, non-empty) contents in that order
with no re-sorting, the chapter sequence depends on the archive only through
its entry-lookup map — so the items' byte order inside the archive is
irrelevant — and on the successful manifest path `extractEpubContent`
returns exactly this chapter sequence. -/
theorem claim_C1_manifest_order (zip zip2 : List ZipEntry) (opfContent : String)
    (items : List String) (hscan : scanItems opfContent = items)
    (hlook : ∀ p, zipLookup zip p = zipLookup zip2 p) :
    extractHtmlFilesFromOpf (zipNames zip) opfContent
        = items.map (fun href => opfBasePath (zipNames zip) ++ href)
    ∧ (chaptersFromFiles zip (extractHtmlFilesFromOpf (zipNames zip) opfContent)).map
          Chapter.content
        = (items.map (fun href => opfBasePath (zipNames zip) ++ href)).filterMap
            (chapterContentOf zip)
    ∧ (∀ files, chaptersFromFiles zip files = chaptersFromFiles zip2 files)
    ∧ (∀ containerXml opfPath,
        zipLookup zip "META-INF/container.xml" = some containerXml → containerXml ≠ "" →
        rootfileFullPath containerXml = some opfPath →
        zipLookup zip opfPath = some opfContent → opfContent ≠ "" →
        chaptersFromFiles zip (extractHtmlFilesFromOpf (zipNames zip) opfContent) ≠ [] →
        extractEpubContent zip
          = chaptersFromFiles zip (extractHtmlFilesFromOpf (zipNames zip) opfContent)) := by
  refine ⟨?_, ?_, ?_, ?_⟩
  · rw [extractHtmlFilesFromOpf, hscan]
  · rw [chaptersFromFiles, chaptersFromFilesAux_map_content, extractHtmlFilesFromOpf, hscan]
  · intro files
    exact chaptersFromFilesAux_congr zip zip2 hlook files 1
  · intro cx op hc hcne hrf hop hopne hne
    simp only [extractEpubContent, hc, hrf, hop, if_neg hcne, if_neg hopne, if_neg hne]

/-- C1 witness: a concrete archive whose manifest declares `z2.html` before
`a1.html` while the entries are stored in the opposite byte order. -/
theorem claim_C1_manifest_order_witness :
    (chaptersFromFiles zipW (extractHtmlFilesFromOpf (zipNames zipW) opfW)).map
        Chapter.content
      = (["z2.html", "a1.html"].map (fun href => opfBasePath (zipNames zipW) ++ href)).filterMap
          (chapterContentOf zipW) :=
  (claim_C1_manifest_order zipW zipW opfW ["z2.html", "a1.html"] (by decide)
    (fun _ => rfl)).2.1

/-- C2 (code bug): the run `A` lies above the run `B` (top-down y 100 versus
140 for page extent 800), yet the comparator returns a positive number on
`(A, B)` and the sort places `B` first — the primary key is descending
top-down y, not ascending as the sort's own comments and the claim state.
The 10-unit tie-break by ascending x does behave as claimed (`X`, `Y`). -/
theorem claim_C2_sort_descends :
    ((800 : Int) - 700 < 800 - 660)
    ∧ compareItems 800 ⟨"A", 0, 700⟩ ⟨"B", 0, 660⟩ = 40
    ∧ (sortByCompare (compareItems 800) [⟨"A", 0, 700⟩, ⟨"B", 0, 660⟩]).map TextItem.str
        = ["B", "A"]
    ∧ (sortByCompare (compareItems 800) [⟨"X", 0, 700⟩, ⟨"Y", 20, 696⟩]).map TextItem.str
        = ["X", "Y"] :=
  ⟨by decide, by decide, by decide, by decide⟩

/-- C3 counterexample: in `zipGap` the first declared file survives
sanitization empty and is dropped, and the single produced chapter carries id
`chapter-2` — the id sequence is not contiguous from 1. -/
theorem claim_C3_ids_gap_cex :
    (extractEpubContent zipGap).length = 1
    ∧ (extractEpubContent zipGap).map Chapter.id = ["chapter-2"]
    ∧ ("chapter-2" : String) ≠ "chapter-1" :=
  ⟨by decide, by decide, by decide⟩

/-- C3 amended: ids record each chapter's 1-based position in the resolved
input file list, so every produced chapter of file position `j` carries id
`chapter-(j+1)`, and the ids are contiguous `chapter-1 .. chapter-N` exactly
when every input file yields a chapter; dropped files leave gaps instead of
being renumbered. -/
theorem claim_C3_ids_original_position (zip : List ZipEntry) (files : List String) :
    (∀ c ∈ chaptersFromFiles zip files, ∃ j f, files.get? j = some f ∧
        createChapterFromHtml zip f (1 + j) = some c ∧ c.id = "chapter-" ++ toString (1 + j))
    ∧ (allSurviveFrom zip 1 files = true →
        (chaptersFromFiles zip files).map Chapter.id
          = (List.range files.length).map (fun j => "chapter-" ++ toString (1 + j))) := by
  constructor
  · intro c hc
    obtain ⟨j, f, hf, hcr⟩ := chaptersFromFilesAux_mem zip files 1 c hc
    exact ⟨j, f, hf, hcr, createChapterFromHtml_id zip f (1 + j) c hcr⟩
  · intro hall
    exact chaptersFromFilesAux_ids zip files 1 hall

/-- C3 witness: with no dropped file the ids are contiguous from 1. -/
theorem claim_C3_ids_original_position_witness :
    (chaptersFromFiles zipNoDrop ["a.html", "b.html"]).map Chapter.id
      = (List.range 2).map (fun j => "chapter-" ++ toString (1 + j)) :=
  (claim_C3_ids_original_position zipNoDrop ["a.html", "b.html"]).2 (by decide)

/-- C4: the sanitizer removes script blocks, style blocks, meta tags and link
tags, decodes the entity set of the source, and trims; on the claim's input
the result is exactly `<p>Hello & World</p>`, which contains that paragraph
and no `<script>` tag. -/
theorem claim_C4_sanitizer :
    extractContentFromHtml "<script>evil()</script><p>Hello &amp; World</p>"
        = "<p>Hello & World</p>"
    ∧ containsSubS "<p>Hello & World</p>"
        (extractContentFromHtml "<script>evil()</script><p>Hello &amp; World</p>") = true
    ∧ containsSubS "<script"
        (extractContentFromHtml "<script>evil()</script><p>Hello &amp; World</p>") = false
    ∧ cleanHtmlContent "<style>red</style><meta charset=\"utf-8\"><link rel=\"x\">  ok  "
        = "ok"
    ∧ decodeEntities "a &amp; &lt; &gt; &quot; b" = "a & < > \" b"
    ∧ decodeEntities "&#39;" = aposS
    ∧ decodeEntities "x&nbsp;y" = "x y" :=
  ⟨by decide, by decide, by decide, by decide, by decide, by decide, by decide⟩

/-- C5 counterexample: the container descriptor of `zipDecoy` declares the
manifest `OEBPS/content.opf`, whose containing directory is `OEBPS/`, but the
base path is computed from the first `.opf`-suffixed entry `other/fake.opf`,
so the declared href `ch1.html` resolves to `other/ch1.html` instead of
`OEBPS/ch1.html` and the produced chapter shows the wrong file's content. -/
theorem claim_C5_basepath_cex :
    rootfileFullPath containerDecoy = some "OEBPS/content.opf"
    ∧ dirOf "OEBPS/content.opf" ++ "ch1.html" = "OEBPS/ch1.html"
    ∧ extractHtmlFilesFromOpf (zipNames zipDecoy) opfDecoy = ["other/ch1.html"]
    ∧ ("other/ch1.html" : String) ≠ "OEBPS/ch1.html"
    ∧ zipLookup zipDecoy "OEBPS/ch1.html" = some "<p>One</p>"
    ∧ (extractEpubContent zipDecoy).map Chapter.content = ["<p>Wrong</p>"] :=
  ⟨by decide, by decide, by decide, by decide, by decide, by decide⟩

/-- C5 amended: the base directory is the containing directory (up to and
including the last slash) of the first archive entry, in enumeration order,
whose name ends in `.opf` — which need not be the manifest the container
descriptor names — and every resolved content path is that prefix prepended
to the declared href. -/
theorem claim_C5_basepath_first_opf (names : List String) (opfContent : String)
    (p : String) (hfind : names.find? (fun n => endsWithS n ".opf") = some p) :
    extractHtmlFilesFromOpf names opfContent
      = (scanItems opfContent).map (fun href => dirOf p ++ href) := by
  rw [extractHtmlFilesFromOpf, opfBasePath, hfind]

/-- C5 witness: the amended base-path rule at a concrete archive. -/
theorem claim_C5_basepath_first_opf_witness :
    extractHtmlFilesFromOpf ["OEBPS/content.opf", "x.html"] opfDecoy
      = (scanItems opfDecoy).map (fun href => dirOf "OEBPS/content.opf" ++ href) :=
  claim_C5_basepath_first_opf ["OEBPS/content.opf", "x.html"] opfDecoy
    "OEBPS/content.opf" (by decide)

/-- C6 counterexample: an entry whose name merely contains `META-INF` as a
substring is skipped by the direct scan even though its extension matches a
content suffix and its path is not under the reserved metadata directory. -/
theorem claim_C6_metainf_cex :
    isContentFileName "xMETA-INFy.html" = true
    ∧ isPrefixCS "META-INF/".data "xMETA-INFy.html".data = false
    ∧ extractHtmlFilesDirectly ["xMETA-INFy.html"] = []
    ∧ extractEpubContent [⟨"xMETA-INFy.html", "<p>A</p>"⟩] = [] :=
  ⟨by decide, by decide, by decide, by decide⟩

/-- C6 amended: the direct-scan fallback collects, in the archive index's
enumeration order, every entry whose extension matches a content suffix and
whose full path does not contain the substring `META-INF` anywhere (a
stricter exclusion than only the reserved metadata directory); an archive
with no container descriptor, three content-suffixed entries and one
stylesheet entry yields exactly three chapters, in order, and the extraction
returns them normally — no manifest-path error reaches the caller. -/
theorem claim_C6_direct_scan (names : List String) :
    extractHtmlFilesDirectly names
        = names.filter (fun n => isContentFileName n && !containsSubS "META-INF" n)
    ∧ zipLookup zipFallback "META-INF/container.xml" = none
    ∧ (extractEpubContent zipFallback).length = 3
    ∧ (extractEpubContent zipFallback).map Chapter.id
        = ["chapter-1", "chapter-2", "chapter-3"]
    ∧ (extractEpubContent zipFallback).map Chapter.content
        = ["<p>A</p>", "<p>B</p>", "<p>C</p>"] := by
  refine ⟨?_, by decide, by decide, by decide, by decide⟩
  rw [extractHtmlFilesDirectly]
  exact foldl_push_filter _ names []

/-- C7 (code bug): on the claim's three runs (top-down y 100, 104, 140 for
page extent 800) the reconstructor emits two lines grouped as claimed — `A`
and `B` share a line in x order — but in the order `C` first and then `AB`,
because the sort's primary key is descending top-down y; the claim's expected
output, `AB` before `C`, is not produced. -/
theorem claim_C7_line_grouping_eval :
    convertTextContentToHtml [⟨"A", 0, 700⟩, ⟨"B", 20, 696⟩, ⟨"C", 0, 660⟩] 800
        = "<div class=\"pdf-page\"><div class=\"pdf-line\"><span class=\"pdf-text\">C</span></div><div class=\"pdf-line\"><span class=\"pdf-text\">A</span><span class=\"pdf-text\">B</span></div></div>"
    ∧ convertTextContentToHtml [⟨"A", 0, 700⟩, ⟨"B", 20, 696⟩, ⟨"C", 0, 660⟩] 800
        ≠ "<div class=\"pdf-page\"><div class=\"pdf-line\"><span class=\"pdf-text\">A</span><span class=\"pdf-text\">B</span></div><div class=\"pdf-line\"><span class=\"pdf-text\">C</span></div></div>" :=
  ⟨by decide, by decide⟩

/-- C8 counterexample: in `htmlEmptyTitle` the `<title>` capture is raw
non-empty but sanitizes to the empty string, while the later `<h1>` would
sanitize to the non-empty `Real`; the produced title is the synthesized
`Chapter 1`, not the first non-empty sanitized match. -/
theorem claim_C8_title_cex :
    extractTitleFromHtml htmlEmptyTitle = some ""
    ∧ tagCapture "h1" htmlEmptyTitle = some "Real"
    ∧ cleanTextContent "Real" = "Real"
    ∧ (createChapterFromHtml zipEmptyTitle "t.html" 1).map Chapter.title = some "Chapter 1"
    ∧ ("Chapter 1" : String) ≠ "Real" :=
  ⟨by decide, by decide, by decide, by decide, by decide⟩

/-- C8 amended: the patterns `<title>`, `<h1>`, `<h2>`, `<h3>` are searched
in that order and the first whose raw capture is non-empty after trimming
wins; the chapter title is that capture's tag-stripped sanitization when it
is non-empty, and the synthesized `Chapter` + ordinal both when no pattern
yields a raw non-empty capture and when the winning capture sanitizes to the
empty string; every sanitized title is capped at 20000 characters. -/
theorem claim_C8_title_derivation (html : String) (i : Nat) :
    extractTitleFromHtml html = titleFromPatterns ["title", "h1", "h2", "h3"] html
    ∧ (extractTitleFromHtml html = none →
        chapterTitleOf html i = "Chapter " ++ toString i)
    ∧ (∀ t, extractTitleFromHtml html = some t → t ≠ "" → chapterTitleOf html i = t)
    ∧ (∀ t, extractTitleFromHtml html = some t → t = "" →
        chapterTitleOf html i = "Chapter " ++ toString i)
    ∧ (∀ t, extractTitleFromHtml html = some t → t.length ≤ 20000) := by
  refine ⟨rfl, ?_, ?_, ?_, ?_⟩
  · intro hn
    rw [chapterTitleOf, hn]
  · intro t ht hne
    simp only [chapterTitleOf, ht, if_neg hne]
  · intro t ht he
    simp only [chapterTitleOf, ht, if_pos he]
  · intro t ht
    obtain ⟨cap, hcap⟩ := titleFromPatterns_shape ["title", "h1", "h2", "h3"] html t ht
    rw [hcap]
    exact cleanTextContent_length_le cap

/-- C8 witness: a document whose `<h2>` provides the title. -/
theorem claim_C8_title_derivation_witness :
    chapterTitleOf "<h2>Hi</h2>" 3 = "Hi" :=
  (claim_C8_title_derivation "<h2>Hi</h2>" 3).2.2.1 "Hi" (by decide) (by decide)

/-- C9 counterexample: when the total is 0 the progress effects are guarded
out — no progress record (and hence no percentage, in particular not 0) is
produced, contrary to the claim's `percentage(x, 0) = 0` clause. -/
theorem claim_C9_total_zero_cex :
    autoSaveProgress 3 0 true = none
    ∧ unmountSaveProgress 3 0 = none
    ∧ (autoSaveProgress 3 0 true).map Progress.percentage ≠ some 0 :=
  ⟨by decide, by decide, by decide⟩

/-- C9 amended: whenever the total is positive, both save effects record the
percentage `round(current / total * 100)` (exact-arithmetic rounding, with
`round x = ⌊x + 1/2⌋` as JavaScript `Math.round`); `percentage(1,4) = 25`,
`percentage(4,4) = 100`, and under `1 ≤ current ≤ total` the result lies in
`[0, 100]`.  When the total is 0 the effects produce no record at all. -/
theorem claim_C9_percentage (c t : Nat) (e : Bool) (ht : 0 < t) :
    autoSaveProgress c t true = some ⟨c, t, progressPercentage c t⟩
    ∧ unmountSaveProgress c t = some ⟨c, t, progressPercentage c t⟩
    ∧ (progressPercentage c t : ℤ) = round ((c : ℚ) * 100 / t)
    ∧ progressPercentage 1 4 = 25
    ∧ progressPercentage 4 4 = 100
    ∧ (1 ≤ c → c ≤ t → progressPercentage c t ≤ 100)
    ∧ autoSaveProgress c 0 e = none
    ∧ unmountSaveProgress c 0 = none := by
  refine ⟨?_, ?_, progressPercentage_eq_round c t ht, by decide, by decide,
    fun _ h2 => progressPercentage_le_100 c t h2, ?_, ?_⟩
  · rw [autoSaveProgress, if_pos ⟨ht, rfl⟩]
  · rw [unmountSaveProgress, if_pos ht]
  · rw [autoSaveProgress, if_neg (by simp)]
  · rw [unmountSaveProgress, if_neg (by simp)]

/-- C9 witness: the formula and the bound at current 1, total 4. -/
theorem claim_C9_percentage_witness :
    (progressPercentage 1 4 : ℤ) = round ((1 : ℚ) * 100 / 4)
    ∧ progressPercentage 1 4 ≤ 100 :=
  ⟨(claim_C9_percentage 1 4 true (by decide)).2.2.1,
   (claim_C9_percentage 1 4 true (by decide)).2.2.2.2.2.1 (by decide) (by decide)⟩

/-- C10: entity decoding runs after tag removal, so the entity-encoded script
block decodes to a literal `<script>` tag in the sanitized output, while the
raw input contains no literal `<script` for the removal pass to see. -/
theorem claim_C10_entity_decoding_order :
    cleanHtmlContent "&lt;script&gt;alert(1)&lt;/script&gt;" = "<script>alert(1)</script>"
    ∧ containsSubS "<script>" (cleanHtmlContent "&lt;script&gt;alert(1)&lt;/script&gt;") = true
    ∧ containsSubS "<script" "&lt;script&gt;alert(1)&lt;/script&gt;" = false :=
  ⟨by decide, by decide, by decide⟩

end ReadEase
